import Mathlib

/-!
Shallow embedding of the rusty_chip8 CHIP-8 interpreter
(src/cpu.rs, src/display.rs, src/keyboard.rs) and proofs about it.

Conventions of the embedding:
* Machine integers (u8, u16, usize) are modelled as `Nat` with explicit
  `% 256` / `% 65536` where the Rust code performs wrapping arithmetic.
  Bit operations on bytes are expressed through division and remainder
  (`a >> k` is `a / 2 ^ k`, `a & 1` is `a % 2`, `a & 0x80` is
  `a / 128 % 2 * 128`), which agree with the Rust expressions on the
  value ranges the types enforce.
* Array/slice indexing panics in Rust when out of bounds; fallible
  operations therefore return `Option`, with `none` modelling a panic
  (including the explicit `panic!()` calls for load errors and
  undecodable opcodes).
* `HashSet<u8>` iteration order is unspecified in Rust; the pressed-key
  set is modelled as a duplicate-free list whose head plays the role of
  `iter().next()`.
-/

namespace Chip8

/-- Constant `WIDTH` from display.rs. -/
def WIDTH : Nat := 64

/-- Constant `HEIGHT` from display.rs. -/
def HEIGHT : Nat := 32

/-- Structure `Display` from display.rs: a redraw flag and a `WIDTH*HEIGHT` flat
framebuffer of booleans. -/
structure Display where
  need_redraw : Bool
  fb : List Bool
deriving DecidableEq

/-- Constructor `Display::new`. -/
def Display.new : Display :=
  { need_redraw := false, fb := List.replicate (WIDTH * HEIGHT) false }

/-- Method `Display::clear`. -/
def Display.clear (_d : Display) : Display :=
  { need_redraw := true, fb := List.replicate (WIDTH * HEIGHT) false }

/-- Method `Display::set_pixel`: `self.fb[x + y * WIDTH] = val`; an
out-of-bounds index panics (modelled by `none`). -/
def Display.set_pixel (d : Display) (x y : Nat) (val : Bool) : Option Display :=
  if x + y * WIDTH < d.fb.length then
    some { d with fb := d.fb.set (x + y * WIDTH) val }
  else none

/-- Method `Display::get_pixel`: `self.fb[x + y * WIDTH]`; out of bounds
panics (modelled by `none`). -/
def Display.get_pixel (d : Display) (x y : Nat) : Option Bool :=
  d.fb[x + y * WIDTH]?

/-- Inner loop of `Display::draw_sprite` (`for i in 0..8`, here the
iteration over the remaining bit positions, initially `List.range 8`),
processing the given bits of the sprite byte `row` for the row at
wrapped vertical position `yj`.  `row >> (7 - i) & 0x01` is rendered as
`row / 2 ^ (7 - i) % 2`. -/
def Display.draw_bits (d : Display) (coll : Bool) (x yj row : Nat) :
    List Nat → Option (Display × Bool)
  | [] => some (d, coll)
  | i :: is =>
    let new_value := row / 2 ^ (7 - i) % 2
    if new_value = 1 then
      let xi := (x + i) % 64
      match d.get_pixel xi yj with
      | none => none
      | some old_value =>
        let coll' := coll || old_value
        match d.set_pixel xi yj ((new_value == 1) ^^ old_value) with
        | none => none
        | some d' => d'.draw_bits coll' x yj row is
    else d.draw_bits coll x yj row is

/-- Outer loop of `Display::draw_sprite` (`for j in 0..rows`): the
remaining sprite bytes, with `j` the row offset of the first of them.
The wrapped vertical coordinate `(y + j) % 32` is computed once per row
(the source computes it per set bit, with the same value). -/
def Display.draw_rows (d : Display) (coll : Bool) (x y j : Nat) :
    List Nat → Option (Display × Bool)
  | [] => some (d, coll)
  | row :: rest =>
    match d.draw_bits coll x ((y + j) % 32) row (List.range 8) with
    | none => none
    | some (d', coll') => d'.draw_rows coll' x y (j + 1) rest

/-- Method `Display::draw_sprite`: XOR-compose the sprite rows into the
framebuffer with toroidal wraparound, reporting a collision when a
visited pixel was already on; finally set the redraw flag. -/
def Display.draw_sprite (d : Display) (x y : Nat) (sprite : List Nat) :
    Option (Display × Bool) :=
  match d.draw_rows false x y 0 sprite with
  | none => none
  | some (d', coll) => some ({ d' with need_redraw := true }, coll)

/-! ### Pixel-level view of sprite drawing

`draw_sprite` visits, in order, the framebuffer cells addressed by the
set bits of the sprite; the following definitions compute that list of
flat framebuffer indices, and `flipAll` replays the XOR writes. -/

/-- Framebuffer cell read with default, the pure view of `get_pixel`. -/
def pix (fb : List Bool) (t : Nat) : Bool := fb.getD t false

/-- Invert one framebuffer cell (the effect of one XOR write of a set
sprite bit). -/
def flip1 (fb : List Bool) (t : Nat) : List Bool := fb.set t (!pix fb t)

/-- Replay XOR writes at the given cell indices, in order. -/
def flipAll (fb : List Bool) (ts : List Nat) : List Bool := ts.foldl flip1 fb

/-- Indices visited by `draw_bits` for the given bit positions of `row`. -/
def bitTargets (x yj row : Nat) : List Nat → List Nat
  | [] => []
  | i :: is =>
    (if row / 2 ^ (7 - i) % 2 = 1 then [(x + i) % 64 + yj * 64] else [])
      ++ bitTargets x yj row is

/-- Indices visited by `draw_rows` for the given remaining rows. -/
def rowTargets (x y j : Nat) : List Nat → List Nat
  | [] => []
  | row :: rest => bitTargets x ((y + j) % 32) row (List.range 8) ++ rowTargets x y (j + 1) rest

/-- All framebuffer indices visited by `draw_sprite x y sprite`. -/
def spriteTargets (x y : Nat) (sprite : List Nat) : List Nat :=
  rowTargets x y 0 sprite

/-! ### Basic cell lemmas -/

theorem pix_set_self (fb : List Bool) (t : Nat) (v : Bool) (h : t < fb.length) :
    pix (fb.set t v) t = v := by
  simp [pix, List.getD_eq_getElem?_getD, List.getElem?_set_self', h]

theorem pix_set_ne (fb : List Bool) (t t' : Nat) (v : Bool) (h : t' ≠ t) :
    pix (fb.set t v) t' = pix fb t' := by
  simp [pix, List.getD_eq_getElem?_getD, List.getElem?_set_ne (fun he => h he.symm)]

theorem flip1_length (fb : List Bool) (t : Nat) : (flip1 fb t).length = fb.length := by
  simp [flip1]

theorem flipAll_length (ts : List Nat) (fb : List Bool) :
    (flipAll fb ts).length = fb.length := by
  induction ts generalizing fb with
  | nil => rfl
  | cons t ts ih =>
    show (List.foldl flip1 (flip1 fb t) ts).length = fb.length
    exact (ih (flip1 fb t)).trans (flip1_length fb t)

theorem pix_flip1_ne (fb : List Bool) (t t' : Nat) (h : t' ≠ t) :
    pix (flip1 fb t) t' = pix fb t' := pix_set_ne fb t t' _ h

theorem pix_flipAll_not_mem (ts : List Nat) (fb : List Bool) (t : Nat)
    (h : t ∉ ts) : pix (flipAll fb ts) t = pix fb t := by
  induction ts generalizing fb with
  | nil => rfl
  | cons u ts ih =>
    simp only [List.mem_cons, not_or] at h
    simpa [flipAll] using (ih (flip1 fb u) h.2).trans (pix_flip1_ne fb u t h.1)

theorem flip1_getElem? (fb : List Bool) (t k : Nat) :
    (flip1 fb t)[k]? = (fb[k]?).map (fun b => b ^^ decide (k = t)) := by
  rcases eq_or_ne k t with rfl | hne
  · rcases Nat.lt_or_ge k fb.length with hk | hk
    · have : fb[k]? = some fb[k] := List.getElem?_eq_getElem hk
      simp [flip1, List.getElem?_set_self', this, pix, List.getD_eq_getElem?_getD]
    · have : fb[k]? = none := List.getElem?_eq_none hk
      simp [flip1, List.getElem?_set_self', this]
  · simp [flip1, List.getElem?_set_ne (fun he => hne he.symm), hne]

theorem flipAll_getElem? (ts : List Nat) (fb : List Bool) (k : Nat) :
    (flipAll fb ts)[k]? = (fb[k]?).map (fun b => b ^^ decide (ts.count k % 2 = 1)) := by
  induction ts generalizing fb with
  | nil =>
    simp [flipAll]
  | cons t ts ih =>
    show (List.foldl flip1 (flip1 fb t) ts)[k]? = _
    rw [show List.foldl flip1 (flip1 fb t) ts = flipAll (flip1 fb t) ts from rfl,
      ih (flip1 fb t), flip1_getElem? fb t k, Option.map_map]
    rcases fb[k]? with _ | b
    · rfl
    · simp only [Option.map_some', Option.some.injEq, Function.comp_apply]
      rcases eq_or_ne k t with rfl | hne
      · have hc : (k :: ts).count k = ts.count k + 1 := by
          simp [List.count_cons]
        rw [hc]
        rcases Nat.even_or_odd (ts.count k) with he | ho
        · have h1 : ts.count k % 2 = 0 := Nat.even_iff.mp he
          have h2 : (ts.count k + 1) % 2 = 1 := by omega
          simp [h1, h2]
        · have h1 : ts.count k % 2 = 1 := Nat.odd_iff.mp ho
          have h2 : (ts.count k + 1) % 2 = 0 := by omega
          simp [h1, h2]
      · have : (t :: ts).count k = ts.count k := by
          simp [List.count_cons, hne]
        simp [this, hne]

/-- Two identical rounds of XOR writes cancel. -/
theorem flipAll_flipAll (ts : List Nat) (fb : List Bool) :
    flipAll (flipAll fb ts) ts = fb := by
  apply List.ext_getElem?
  intro k
  rw [flipAll_getElem?, flipAll_getElem?]
  rcases fb[k]? with _ | b
  · rfl
  · simp [Bool.xor_assoc]

theorem any_congr_of_eq {ts : List Nat} {p q : Nat → Bool}
    (h : ∀ t ∈ ts, p t = q t) : ts.any p = ts.any q := by
  induction ts with
  | nil => rfl
  | cons t ts ih =>
    simp only [List.any_cons]
    rw [h t (List.mem_cons_self t ts), ih fun u hu => h u (List.mem_cons_of_mem t hu)]

theorem pix_eq_getElem (fb : List Bool) (t : Nat) (h : t < fb.length) :
    pix fb t = fb[t] := by
  simp [pix, List.getD_eq_getElem?_getD, List.getElem?_eq_getElem h]

/-! ### Characterization of `draw_bits` -/

theorem mem_bitTargets :
    ∀ (is : List Nat) (x yj row t : Nat), t ∈ bitTargets x yj row is →
      ∃ b ∈ is, row / 2 ^ (7 - b) % 2 = 1 ∧ t = (x + b) % 64 + yj * 64 := by
  intro is
  induction is with
  | nil => intro x yj row t ht; simp [bitTargets] at ht
  | cons i is ih =>
    intro x yj row t ht
    rw [bitTargets] at ht
    rcases List.mem_append.mp ht with hl | hr
    · by_cases hbit : row / 2 ^ (7 - i) % 2 = 1
      · simp only [if_pos hbit, List.mem_singleton] at hl
        exact ⟨i, List.mem_cons_self i is, hbit, hl⟩
      · simp [hbit] at hl
    · obtain ⟨b, hb1, hb2, hb3⟩ := ih x yj row t hr
      exact ⟨b, List.mem_cons_of_mem i hb1, hb2, hb3⟩

theorem bitTargets_index_ne (x yj i b : Nat) (hi : i < 8) (hb : b < 8) (hne : i ≠ b) :
    (x + i) % 64 + yj * 64 ≠ (x + b) % 64 + yj * 64 := by
  intro he
  omega

theorem bitTargets_lt (is : List Nat) (x yj row t : Nat) (hyj : yj < 32)
    (ht : t ∈ bitTargets x yj row is) : t < 2048 := by
  obtain ⟨b, _, _, rfl⟩ := mem_bitTargets is x yj row t ht
  have : (x + b) % 64 < 64 := Nat.mod_lt _ (by omega)
  omega

/-- As long as the pending bit positions are distinct and below 8 (as
they are for `List.range 8`), the visited cells are distinct, so the
inner loop flips every visited cell and reports a collision iff one of
them was on in the framebuffer the row started from. -/
theorem draw_bits_spec :
    ∀ (is : List Nat), is.Nodup → (∀ b ∈ is, b < 8) →
      ∀ (d : Display) (coll : Bool) (x yj row : Nat),
      yj < 32 → 2048 ≤ d.fb.length →
      d.draw_bits coll x yj row is =
        some ({ d with fb := flipAll d.fb (bitTargets x yj row is) },
          coll || (bitTargets x yj row is).any (fun t => pix d.fb t)) := by
  intro is
  induction is with
  | nil =>
    intro _ _ d coll x yj row _hyj _hlen
    simp [Display.draw_bits, bitTargets, flipAll]
  | cons i is ih =>
    intro hnd hlt d coll x yj row hyj hlen
    have h8 : i < 8 := hlt i (List.mem_cons_self i is)
    have hxi : (x + i) % 64 < 64 := Nat.mod_lt _ (by omega)
    have ht0 : (x + i) % 64 + yj * 64 < d.fb.length := by omega
    rw [Display.draw_bits, bitTargets]
    by_cases hbit : row / 2 ^ (7 - i) % 2 = 1
    · simp only [if_pos hbit, Display.get_pixel, Display.set_pixel, WIDTH,
        List.getElem?_eq_getElem ht0]
      have hset : ((row / 2 ^ (7 - i) % 2 == 1) ^^ d.fb[(x + i) % 64 + yj * 64]) =
          !pix d.fb ((x + i) % 64 + yj * 64) := by
        rw [hbit, pix_eq_getElem _ _ ht0]
        simp
      simp only [hset, if_pos ht0]
      have hrec := ih (List.Nodup.of_cons hnd)
        (fun b hb => hlt b (List.mem_cons_of_mem i hb))
        ⟨d.need_redraw, flip1 d.fb ((x + i) % 64 + yj * 64)⟩
        (coll || d.fb[(x + i) % 64 + yj * 64]) x yj row hyj
        (by simpa [flip1_length] using hlen)
      rw [show (d.fb.set ((x + i) % 64 + yj * 64)
          (!pix d.fb ((x + i) % 64 + yj * 64))) =
          flip1 d.fb ((x + i) % 64 + yj * 64) from rfl]
      rw [hrec]
      have hne : ∀ t ∈ bitTargets x yj row is,
          t ≠ (x + i) % 64 + yj * 64 := by
        intro t ht
        obtain ⟨b, hb1, _, rfl⟩ := mem_bitTargets is x yj row t ht
        have hbne : i ≠ b := fun he =>
          ((List.nodup_cons.mp hnd).1) (he ▸ hb1)
        exact fun he =>
          bitTargets_index_ne x yj i b h8 (hlt b (List.mem_cons_of_mem i hb1)) hbne he.symm
      have hany : (bitTargets x yj row is).any
            (fun t => pix (flip1 d.fb ((x + i) % 64 + yj * 64)) t) =
          (bitTargets x yj row is).any (fun t => pix d.fb t) :=
        any_congr_of_eq fun t ht => pix_flip1_ne _ _ _ (hne t ht)
      simp only [List.singleton_append, List.any_cons, hany,
        show flipAll d.fb (((x + i) % 64 + yj * 64) :: bitTargets x yj row is) =
            flipAll (flip1 d.fb ((x + i) % 64 + yj * 64)) (bitTargets x yj row is)
          from rfl,
        pix_eq_getElem _ _ ht0, Bool.or_assoc]
    · simp only [if_neg hbit]
      rw [ih (List.Nodup.of_cons hnd) (fun b hb => hlt b (List.mem_cons_of_mem i hb))
        d coll x yj row hyj hlen]
      simp [hbit]

/-! ### Characterization of `draw_rows` and `draw_sprite` -/

theorem mem_rowTargets :
    ∀ (rows : List Nat) (j x y t : Nat), t ∈ rowTargets x y j rows →
      ∃ jj b, jj < rows.length ∧ b < 8 ∧
        t = (x + b) % 64 + ((y + (j + jj)) % 32) * 64 := by
  intro rows
  induction rows with
  | nil => intro j x y t ht; simp [rowTargets] at ht
  | cons row rest ih =>
    intro j x y t ht
    rcases List.mem_append.mp ht with hl | hr
    · obtain ⟨b, hb1, _, rfl⟩ := mem_bitTargets (List.range 8) x ((y + j) % 32) row t hl
      exact ⟨0, b, by simp, List.mem_range.mp hb1, by rw [Nat.add_zero]⟩
    · obtain ⟨jj, b, hjj, hb, rfl⟩ := ih (j + 1) x y t hr
      exact ⟨jj + 1, b, by simpa using hjj, hb, by ring_nf⟩

theorem rowTargets_lt (rows : List Nat) (j x y t : Nat)
    (ht : t ∈ rowTargets x y j rows) : t < 2048 := by
  obtain ⟨jj, b, _, _, rfl⟩ := mem_rowTargets rows j x y t ht
  have h1 : (x + b) % 64 < 64 := Nat.mod_lt _ (by omega)
  have h2 : (y + (j + jj)) % 32 < 32 := Nat.mod_lt _ (by omega)
  omega

/-- Cells of the first row differ from cells of the remaining rows when
the whole sprite spans fewer than 33 rows. -/
theorem first_row_cell_not_mem_rest (row : Nat) (rest : List Nat) (j x y t : Nat)
    (hlen : rest.length ≤ 31) (ht : t ∈ bitTargets x ((y + j) % 32) row (List.range 8))
    (ht' : t ∈ rowTargets x y (j + 1) rest) : False := by
  obtain ⟨b, hb1, _, he⟩ := mem_bitTargets (List.range 8) x ((y + j) % 32) row t ht
  obtain ⟨jj, b', hjj, hb', he'⟩ := mem_rowTargets rest (j + 1) x y t ht'
  have h1 : (x + b) % 64 < 64 := Nat.mod_lt _ (by omega)
  have h2 : (x + b') % 64 < 64 := Nat.mod_lt _ (by omega)
  omega

/-- Unconditional framebuffer effect of `draw_rows`: every visited cell
is flipped, in visit order (duplicate visits flip repeatedly); the call
never fails on a full-size framebuffer. -/
theorem draw_rows_effect :
    ∀ (rows : List Nat) (j : Nat) (d : Display) (coll : Bool) (x y : Nat),
      2048 ≤ d.fb.length →
      ∃ c2, d.draw_rows coll x y j rows =
        some (⟨d.need_redraw, flipAll d.fb (rowTargets x y j rows)⟩, c2) := by
  intro rows
  induction rows with
  | nil =>
    intro j d coll x y _hlen
    exact ⟨coll, rfl⟩
  | cons row rest ih =>
    intro j d coll x y hlen
    show ∃ c2, (match d.draw_bits coll x ((y + j) % 32) row (List.range 8) with
      | none => none
      | some (d', coll') => d'.draw_rows coll' x y (j + 1) rest) = _
    rw [draw_bits_spec (List.range 8) (List.nodup_range 8)
      (fun b hb => List.mem_range.mp hb) d coll x ((y + j) % 32) row
      (Nat.mod_lt _ (by omega)) hlen]
    dsimp only
    obtain ⟨c2, hc2⟩ := ih (j + 1) ⟨d.need_redraw, flipAll d.fb (bitTargets x ((y + j) % 32) row (List.range 8))⟩
      (coll || (bitTargets x ((y + j) % 32) row (List.range 8)).any fun t => pix d.fb t) x y
      (by simpa [flipAll_length] using hlen)
    refine ⟨c2, ?_⟩
    simp only [hc2]
    rw [show rowTargets x y j (row :: rest) =
      bitTargets x ((y + j) % 32) row (List.range 8) ++ rowTargets x y (j + 1) rest from rfl]
    rw [show flipAll d.fb (bitTargets x ((y + j) % 32) row (List.range 8) ++ rowTargets x y (j + 1) rest) =
      flipAll (flipAll d.fb (bitTargets x ((y + j) % 32) row (List.range 8))) (rowTargets x y (j + 1) rest)
      from List.foldl_append ..]

/-- With at most 32 rows every visited cell is distinct, and `draw_rows`
additionally reports a collision exactly when one of the visited cells
was already on in the starting framebuffer. -/
theorem draw_rows_spec :
    ∀ (rows : List Nat) (j : Nat) (d : Display) (coll : Bool) (x y : Nat),
      2048 ≤ d.fb.length → rows.length ≤ 32 →
      d.draw_rows coll x y j rows =
        some (⟨d.need_redraw, flipAll d.fb (rowTargets x y j rows)⟩,
          coll || (rowTargets x y j rows).any fun t => pix d.fb t) := by
  intro rows
  induction rows with
  | nil =>
    intro j d coll x y _hlen _h32
    simp [Display.draw_rows, rowTargets, flipAll]
  | cons row rest ih =>
    intro j d coll x y hlen h32
    show (match d.draw_bits coll x ((y + j) % 32) row (List.range 8) with
      | none => none
      | some (d', coll') => d'.draw_rows coll' x y (j + 1) rest) = _
    rw [draw_bits_spec (List.range 8) (List.nodup_range 8)
      (fun b hb => List.mem_range.mp hb) d coll x ((y + j) % 32) row
      (Nat.mod_lt _ (by omega)) hlen]
    dsimp only
    have hrest : rest.length ≤ 32 := by
      simp only [List.length_cons] at h32; omega
    rw [ih (j + 1) ⟨d.need_redraw, flipAll d.fb (bitTargets x ((y + j) % 32) row (List.range 8))⟩
      (coll || (bitTargets x ((y + j) % 32) row (List.range 8)).any fun t => pix d.fb t) x y
      (by simpa [flipAll_length] using hlen) hrest]
    have hany : (rowTargets x y (j + 1) rest).any
          (fun t => pix (flipAll d.fb (bitTargets x ((y + j) % 32) row (List.range 8))) t) =
        (rowTargets x y (j + 1) rest).any (fun t => pix d.fb t) := by
      refine any_congr_of_eq fun t ht => ?_
      refine pix_flipAll_not_mem _ _ _ fun hmem => ?_
      exact first_row_cell_not_mem_rest row rest j x y t
        (by simp only [List.length_cons] at h32; omega) hmem ht
    simp only [hany]
    rw [show rowTargets x y j (row :: rest) =
      bitTargets x ((y + j) % 32) row (List.range 8) ++ rowTargets x y (j + 1) rest from rfl]
    rw [show flipAll d.fb (bitTargets x ((y + j) % 32) row (List.range 8) ++ rowTargets x y (j + 1) rest) =
      flipAll (flipAll d.fb (bitTargets x ((y + j) % 32) row (List.range 8))) (rowTargets x y (j + 1) rest)
      from List.foldl_append ..]
    rw [List.any_append, Bool.or_assoc]

/-- Unconditional effect of `draw_sprite` on the framebuffer. -/
theorem draw_sprite_effect (d : Display) (x y : Nat) (sprite : List Nat)
    (hlen : 2048 ≤ d.fb.length) :
    ∃ c, d.draw_sprite x y sprite =
      some (⟨true, flipAll d.fb (spriteTargets x y sprite)⟩, c) := by
  obtain ⟨c2, hc2⟩ := draw_rows_effect sprite 0 d false x y hlen
  exact ⟨c2, by simp [Display.draw_sprite, hc2, spriteTargets]⟩

/-- Full specification of `draw_sprite` for sprites of at most 32 rows:
all visited cells distinct, flipped once each, collision iff one of them
was on beforehand. -/
theorem draw_sprite_spec (d : Display) (x y : Nat) (sprite : List Nat)
    (hlen : 2048 ≤ d.fb.length) (h32 : sprite.length ≤ 32) :
    d.draw_sprite x y sprite =
      some (⟨true, flipAll d.fb (spriteTargets x y sprite)⟩,
        (spriteTargets x y sprite).any fun t => pix d.fb t) := by
  rw [Display.draw_sprite, draw_rows_spec sprite 0 d false x y hlen h32]
  simp [spriteTargets]

/-- Totality: `draw_sprite` never fails on a full-size framebuffer. -/
theorem draw_sprite_isSome (d : Display) (x y : Nat) (sprite : List Nat)
    (hlen : 2048 ≤ d.fb.length) : (d.draw_sprite x y sprite).isSome = true := by
  obtain ⟨c, hc⟩ := draw_sprite_effect d x y sprite hlen
  simp [hc]

/-! ### Keyboard (keyboard.rs) -/

/-- Structure `Keyboard` from keyboard.rs.  The `HashMap<Keycode, u8>` keymap is a
list of (host SDL keycode, logical key) pairs; the `HashSet<u8>` of held
keys is a duplicate-free list whose head models `iter().next()`. -/
structure Keyboard where
  keymap : List (Nat × Nat)
  keys : List Nat
deriving DecidableEq

/-- Table `Keyboard::gen_keymap`: the fixed host-key to logical-key table
(SDL keycodes for 1,2,3,4,q,w,e,r,a,s,d,f,z,x,c,v). -/
def gen_keymap : List (Nat × Nat) :=
  [(49, 0), (50, 1), (51, 2), (52, 3),
   (113, 4), (119, 5), (101, 6), (114, 7),
   (97, 8), (115, 9), (100, 10), (102, 11),
   (122, 12), (120, 13), (99, 14), (118, 15)]

/-- Constructor `Keyboard::new`. -/
def Keyboard.new : Keyboard := { keymap := gen_keymap, keys := [] }

/-- Method `Keyboard::clear`. -/
def Keyboard.clear (kb : Keyboard) : Keyboard := { kb with keys := [] }

/-- Operation `HashSet::insert` on the held-key list: add the key if absent. -/
def insert_key (ks : List Nat) (v : Nat) : List Nat :=
  if ks.contains v then ks else ks ++ [v]

/-- Method `Keyboard::update_keys`: rebuild the held set from scratch from the
pressed host keys, keeping only those in the keymap. -/
def Keyboard.update_keys (kb : Keyboard) (keys_pressed : List Nat) : Keyboard :=
  { kb with
    keys := keys_pressed.foldl
      (fun ks hk =>
        match kb.keymap.lookup hk with
        | some v => insert_key ks v
        | none => ks) [] }

/-- Method `Keyboard::is_pressed`. -/
def Keyboard.is_pressed (kb : Keyboard) (key : Nat) : Bool :=
  kb.keys.contains key

/-! ### CPU (cpu.rs) -/

/-- Structure `CPU` from cpu.rs.  `pc`, `i`, stack entries are u16 values; `sp`,
`dt`, `st`, registers and memory bytes are u8 values; all are modelled
as `Nat`.  The extra `rand` field models the external entropy the
source draws from the system clock in the RND instruction
(`SystemTime::now()...subsec_nanos()`); it is read, never written. -/
structure CPU where
  pc : Nat
  stack : List Nat
  sp : Nat
  i : Nat
  dt : Nat
  st : Nat
  v : List Nat
  memory : List Nat
  keyboard : Keyboard
  display : Display
  rand : Nat
deriving DecidableEq

/-- Constructor `CPU::new`. -/
def CPU.new : CPU :=
  { pc := 0x200
    stack := List.replicate 16 0
    sp := 0
    i := 0
    dt := 0
    st := 0
    v := List.replicate 16 0
    memory := List.replicate 4096 0
    keyboard := Keyboard.new
    display := Display.new
    rand := 0 }

/-- The font table of `CPU::load_font`. -/
def font : List Nat :=
  [0xF0, 0x90, 0x90, 0x90, 0xF0,
   0x20, 0x60, 0x20, 0x20, 0x70,
   0xF0, 0x10, 0xF0, 0x80, 0xF0,
   0xF0, 0x10, 0xF0, 0x10, 0xF0,
   0x90, 0x90, 0xF0, 0x10, 0x10,
   0xF0, 0x80, 0xF0, 0x10, 0xF0,
   0xF0, 0x80, 0xF0, 0x90, 0xF0,
   0xF0, 0x10, 0x20, 0x40, 0x40,
   0xF0, 0x90, 0xF0, 0x90, 0xF0,
   0xF0, 0x90, 0xF0, 0x10, 0xF0,
   0xF0, 0x90, 0xF0, 0x90, 0x90,
   0xE0, 0x90, 0xE0, 0x90, 0xE0,
   0xF0, 0x80, 0x80, 0x80, 0xF0,
   0xE0, 0x90, 0x90, 0x90, 0xE0,
   0xF0, 0x80, 0xF0, 0x80, 0xF0,
   0xF0, 0x80, 0xF0, 0x80, 0x80]

/-- The copy loop shared by `load_font` and `load_rom`:
`for i in 0..src.len() { memory[pos + i] = src[i] }`. -/
def copy_bytes (mem : List Nat) (pos : Nat) : List Nat → List Nat
  | [] => mem
  | b :: rest => copy_bytes (mem.set pos b) (pos + 1) rest

/-- Method `CPU::load_font`. -/
def CPU.load_font (cpu : CPU) : CPU :=
  { cpu with memory := copy_bytes cpu.memory 0 font }

/-- Method `CPU::reset`. -/
def CPU.reset (cpu : CPU) : CPU :=
  CPU.load_font
    { cpu with
      pc := 0x200
      stack := List.replicate 16 0
      sp := 0
      i := 0
      dt := 0
      st := 0
      v := List.replicate 16 0
      memory := List.replicate 4096 0
      keyboard := cpu.keyboard.clear
      display := cpu.display.clear }

/-- Method `CPU::load_rom`, with the file contents passed in as bytes (reading
the file itself is outside the core).  The source accepts the image
only when `contents.len() < 0xFFF - 0x200` and calls `panic!()`
otherwise (modelled by `none`). -/
def CPU.load_rom (cpu : CPU) (contents : List Nat) : Option CPU :=
  if contents.length < 0xFFF - 0x200 then
    some { cpu with memory := copy_bytes cpu.memory 0x200 contents }
  else none

/-- Method `CPU::process_opcode`.  The nibble split mirrors the source:
`(opcode & 0xF000) >> 12` is `opcode / 4096 % 16`, `(opcode & 0x0F00) >> 8`
is `opcode / 256 % 16`, `(opcode & 0x00F0) >> 4` is `opcode / 16 % 16`,
`opcode & 0x000F` is `opcode % 16`, `opcode & 0x0FFF` is `opcode % 4096`,
and `opcode & 0x00FF` is `opcode % 256` (opcodes are u16 values).  The
ordered `match` over nibble tuples is rendered as the equivalent ordered
chain of guarded cases; the final catch-all `panic!()` is `none`.
Register reads `self.v[idx]` use `getD` (the register index is a nibble
and the register file has 16 entries); fallible memory/stack/frame
accesses use bounds checks returning `none` for a panic, and `u8`/`u16`
wrapping arithmetic carries explicit `% 256` / `% 65536`. -/
def CPU.process_opcode (cpu : CPU) (opcode : Nat) : Option CPU :=
  let op_4 := opcode / 4096 % 16
  let op_3 := opcode / 256 % 16
  let op_2 := opcode / 16 % 16
  let op_1 := opcode % 16
  let nnn := opcode % 4096
  let x := op_3
  let y := op_2
  let n := op_1
  let kk := opcode % 256
  -- CLS
  if op_4 = 0x0 ∧ op_3 = 0x0 ∧ op_2 = 0xE ∧ op_1 = 0x0 then
    some { cpu with display := cpu.display.clear }
  -- RET
  else if op_4 = 0x0 ∧ op_3 = 0x0 ∧ op_2 = 0xE ∧ op_1 = 0xE then
    if cpu.sp = 0 then none
    else
      match cpu.stack[cpu.sp - 1]? with
      | none => none
      | some a => some { cpu with sp := cpu.sp - 1, pc := a }
  -- JP addr
  else if op_4 = 0x1 then
    some { cpu with pc := nnn }
  -- CALL addr
  else if op_4 = 0x2 then
    if cpu.sp < cpu.stack.length then
      some { cpu with stack := cpu.stack.set cpu.sp cpu.pc, sp := cpu.sp + 1, pc := nnn }
    else none
  -- SE Vx, byte
  else if op_4 = 0x3 then
    if cpu.v.getD x 0 = kk then some { cpu with pc := (cpu.pc + 2) % 65536 } else some cpu
  -- SNE Vx, byte
  else if op_4 = 0x4 then
    if cpu.v.getD x 0 ≠ kk then some { cpu with pc := (cpu.pc + 2) % 65536 } else some cpu
  -- SE Vx, Vy (the source arm matches any low nibble: `(0x5, _, _, _)`)
  else if op_4 = 0x5 then
    if cpu.v.getD x 0 = cpu.v.getD y 0 then some { cpu with pc := (cpu.pc + 2) % 65536 }
    else some cpu
  -- LD Vx, byte
  else if op_4 = 0x6 then
    some { cpu with v := cpu.v.set x kk }
  -- ADD Vx, byte (wrapping_add)
  else if op_4 = 0x7 then
    some { cpu with v := cpu.v.set x ((cpu.v.getD x 0 + kk) % 256) }
  -- LD Vx, Vy
  else if op_4 = 0x8 ∧ op_1 = 0x0 then
    some { cpu with v := cpu.v.set x (cpu.v.getD y 0) }
  -- OR Vx, Vy
  else if op_4 = 0x8 ∧ op_1 = 0x1 then
    some { cpu with v := cpu.v.set x (cpu.v.getD x 0 ||| cpu.v.getD y 0) }
  -- AND Vx, Vy
  else if op_4 = 0x8 ∧ op_1 = 0x2 then
    some { cpu with v := cpu.v.set x (cpu.v.getD x 0 &&& cpu.v.getD y 0) }
  -- XOR Vx, Vy
  else if op_4 = 0x8 ∧ op_1 = 0x3 then
    some { cpu with v := cpu.v.set x (cpu.v.getD x 0 ^^^ cpu.v.getD y 0) }
  -- ADD Vx, Vy (overflowing_add; result first, then the flag)
  else if op_4 = 0x8 ∧ op_1 = 0x4 then
    let res := (cpu.v.getD x 0 + cpu.v.getD y 0) % 256
    let flag : Nat := if 256 ≤ cpu.v.getD x 0 + cpu.v.getD y 0 then 1 else 0
    some { cpu with v := (cpu.v.set x res).set 0xF flag }
  -- SUB Vx, Vy (overflowing_sub; result first, then the flag)
  else if op_4 = 0x8 ∧ op_1 = 0x5 then
    let res := (cpu.v.getD x 0 + 256 - cpu.v.getD y 0) % 256
    let flag : Nat := if cpu.v.getD x 0 < cpu.v.getD y 0 then 0 else 1
    some { cpu with v := (cpu.v.set x res).set 0xF flag }
  -- SHR Vx (flag first, then the shift reads the updated file)
  else if op_4 = 0x8 ∧ op_1 = 0x6 then
    let v1 := cpu.v.set 0xF (if cpu.v.getD x 0 % 2 = 1 then 1 else 0)
    some { cpu with v := v1.set x (v1.getD x 0 / 2) }
  -- SUBN Vx, Vy
  else if op_4 = 0x8 ∧ op_1 = 0x7 then
    let res := (cpu.v.getD y 0 + 256 - cpu.v.getD x 0) % 256
    let flag : Nat := if cpu.v.getD y 0 < cpu.v.getD x 0 then 0 else 1
    some { cpu with v := (cpu.v.set x res).set 0xF flag }
  -- SHL Vx (flag first, then the shift reads the updated file;
  -- `(v[x] & 0x80) > 1` is `v[x] / 128 % 2 * 128 > 1`)
  else if op_4 = 0x8 ∧ op_1 = 0xE then
    let v1 := cpu.v.set 0xF (if cpu.v.getD x 0 / 128 % 2 * 128 > 1 then 1 else 0)
    some { cpu with v := v1.set x (v1.getD x 0 * 2 % 256) }
  -- SNE Vx, Vy
  else if op_4 = 0x9 ∧ op_1 = 0x0 then
    if cpu.v.getD x 0 ≠ cpu.v.getD y 0 then some { cpu with pc := (cpu.pc + 2) % 65536 }
    else some cpu
  -- LD I, addr
  else if op_4 = 0xA then
    some { cpu with i := nnn }
  -- JP V0, addr
  else if op_4 = 0xB then
    some { cpu with pc := (nnn + cpu.v.getD 0 0) % 65536 }
  -- RND Vx, byte (entropy from the system clock, modelled by `rand`)
  else if op_4 = 0xC then
    some { cpu with v := cpu.v.set x ((cpu.rand % 256) &&& kk) }
  -- DRW Vx, Vy, nibble: the slice `memory[i..=(i+n)]` has n+1 bytes and
  -- requires `i+n+1 <= memory.len()`
  else if op_4 = 0xD then
    if cpu.i + n + 1 ≤ cpu.memory.length then
      match cpu.display.draw_sprite (cpu.v.getD x 0) (cpu.v.getD y 0)
        ((cpu.memory.drop cpu.i).take (n + 1)) with
      | none => none
      | some (d2, collision) =>
        let flag : Nat := if collision then 1 else 0
        some { cpu with display := d2, v := cpu.v.set 0xF flag }
    else none
  -- SKP Vx
  else if op_4 = 0xE ∧ op_2 = 0x9 ∧ op_1 = 0xE then
    if cpu.keyboard.is_pressed (cpu.v.getD x 0) then
      some { cpu with pc := (cpu.pc + 2) % 65536 }
    else some cpu
  -- SKNP Vx
  else if op_4 = 0xE ∧ op_2 = 0xA ∧ op_1 = 0x1 then
    if ¬ cpu.keyboard.is_pressed (cpu.v.getD x 0) then
      some { cpu with pc := (cpu.pc + 2) % 65536 }
    else some cpu
  -- LD Vx, DT
  else if op_4 = 0xF ∧ op_2 = 0x0 ∧ op_1 = 0x7 then
    some { cpu with v := cpu.v.set x cpu.dt }
  -- LD Vx, K: `keys.iter().next()` is the head of the held-key list;
  -- `self.pc -= 2` underflows (panics) when pc < 2
  else if op_4 = 0xF ∧ op_2 = 0x0 ∧ op_1 = 0xA then
    match cpu.keyboard.keys with
    | key :: _ => some { cpu with v := cpu.v.set x key }
    | [] => if cpu.pc < 2 then none else some { cpu with pc := cpu.pc - 2 }
  -- LD DT, Vx
  else if op_4 = 0xF ∧ op_2 = 0x1 ∧ op_1 = 0x5 then
    some { cpu with dt := cpu.v.getD x 0 }
  -- LD ST, Vx
  else if op_4 = 0xF ∧ op_2 = 0x1 ∧ op_1 = 0x8 then
    some { cpu with st := cpu.v.getD x 0 }
  -- ADD I, Vx (u16 add)
  else if op_4 = 0xF ∧ op_2 = 0x1 ∧ op_1 = 0xE then
    some { cpu with i := (cpu.i + cpu.v.getD x 0) % 65536 }
  -- LD F, Vx (`v[x] * 5` is a u8 multiply, then widened)
  else if op_4 = 0xF ∧ op_2 = 0x2 ∧ op_1 = 0x9 then
    some { cpu with i := cpu.v.getD x 0 * 5 % 256 }
  -- LD B, Vx (BCD)
  else if op_4 = 0xF ∧ op_2 = 0x3 ∧ op_1 = 0x3 then
    if cpu.i + 2 < cpu.memory.length then
      let m1 := cpu.memory.set cpu.i (cpu.v.getD x 0 / 100)
      let m2 := m1.set (cpu.i + 1) (cpu.v.getD x 0 / 10 % 10)
      let m3 := m2.set (cpu.i + 2) (cpu.v.getD x 0 % 100 % 10)
      some { cpu with memory := m3 }
    else none
  -- LD [I], Vx
  else if op_4 = 0xF ∧ op_2 = 0x5 ∧ op_1 = 0x5 then
    if cpu.i + x < cpu.memory.length then
      let m2 := (List.range (x + 1)).foldl
        (fun m idx => m.set (cpu.i + idx) (cpu.v.getD idx 0)) cpu.memory
      some { cpu with memory := m2 }
    else none
  -- LD Vx, [I]
  else if op_4 = 0xF ∧ op_2 = 0x6 ∧ op_1 = 0x5 then
    if cpu.i + x < cpu.memory.length then
      let v2 := (List.range (x + 1)).foldl
        (fun vv idx => vv.set idx (cpu.memory.getD (cpu.i + idx) 0)) cpu.v
      some { cpu with v := v2 }
    else none
  -- no decode pattern matches: `panic!()`
  else none

/-- Method `CPU::fetch_opcode` followed by the pc advance and dispatch of
`CPU::exec_cycle`: fetch big-endian at `[pc, pc+1]` (a panic when out
of bounds), advance pc by 2, execute. -/
def CPU.exec_cycle (cpu : CPU) : Option CPU :=
  match cpu.memory[cpu.pc]?, cpu.memory[cpu.pc + 1]? with
  | some hi, some lo =>
    CPU.process_opcode { cpu with pc := (cpu.pc + 2) % 65536 } (hi * 256 + lo)
  | _, _ => none

/-- Method `CPU::update_timers`: decrement both timers toward zero; report
whether the buzzer should sound (sound timer was running). -/
def CPU.update_timers (cpu : CPU) : Bool × CPU :=
  let cpu1 := if cpu.dt > 0 then { cpu with dt := cpu.dt - 1 } else cpu
  if cpu1.st > 0 then (true, { cpu1 with st := cpu1.st - 1 })
  else (false, cpu1)

/-! ### Generic list-access helpers -/

theorem getD_set_self {α : Type} (l : List α) (t : Nat) (v d : α)
    (h : t < l.length) : (l.set t v).getD t d = v := by
  simp [List.getD_eq_getElem?_getD, List.getElem?_set_self', h]

theorem getD_set_ne {α : Type} (l : List α) (t a : Nat) (v d : α)
    (h : a ≠ t) : (l.set t v).getD a d = l.getD a d := by
  simp [List.getD_eq_getElem?_getD, List.getElem?_set_ne (fun he => h he.symm)]

theorem pix_replicate (n t : Nat) : pix (List.replicate n false) t = false := by
  simp [pix, List.getD_eq_getElem?_getD]

/-! ### `copy_bytes` characterization -/

theorem copy_bytes_length :
    ∀ (c : List Nat) (mem : List Nat) (pos : Nat),
      (copy_bytes mem pos c).length = mem.length := by
  intro c
  induction c with
  | nil => intro mem pos; rfl
  | cons b rest ih =>
    intro mem pos
    rw [copy_bytes, ih, List.length_set]

theorem copy_bytes_getD_low :
    ∀ (c : List Nat) (mem : List Nat) (pos a : Nat), a < pos →
      (copy_bytes mem pos c).getD a 0 = mem.getD a 0 := by
  intro c
  induction c with
  | nil => intro mem pos a _; rfl
  | cons b rest ih =>
    intro mem pos a ha
    rw [copy_bytes, ih _ _ _ (by omega), getD_set_ne _ _ _ _ _ (by omega)]

theorem copy_bytes_getD_high :
    ∀ (c : List Nat) (mem : List Nat) (pos a : Nat), pos + c.length ≤ a →
      (copy_bytes mem pos c).getD a 0 = mem.getD a 0 := by
  intro c
  induction c with
  | nil => intro mem pos a _; rfl
  | cons b rest ih =>
    intro mem pos a ha
    simp only [List.length_cons] at ha
    rw [copy_bytes, ih _ _ _ (by omega), getD_set_ne _ _ _ _ _ (by omega)]

theorem copy_bytes_getD_in :
    ∀ (c : List Nat) (mem : List Nat) (pos k : Nat), k < c.length →
      pos + c.length ≤ mem.length →
      (copy_bytes mem pos c).getD (pos + k) 0 = c.getD k 0 := by
  intro c
  induction c with
  | nil => intro mem pos k hk _; simp at hk
  | cons b rest ih =>
    intro mem pos k hk hmem
    simp only [List.length_cons] at hk hmem
    rw [copy_bytes]
    match k with
    | 0 =>
      have hlow : (copy_bytes (mem.set pos b) (pos + 1) rest).getD (pos + 0) 0 =
          (mem.set pos b).getD (pos + 0) 0 :=
        copy_bytes_getD_low rest _ _ _ (by omega)
      rw [hlow, show pos + 0 = pos from rfl, getD_set_self _ _ _ _ (by omega)]
      rfl
    | k + 1 =>
      rw [show pos + (k + 1) = pos + 1 + k by omega,
        ih _ _ _ (by omega) (by simp only [List.length_set]; omega)]
      rfl

/-! ### Dispatch lemmas for the opcode arms the claims are about -/

theorem sub_arm (cpu : CPU) (x y : Nat) (hx : x < 16) (hy : y < 16) :
    CPU.process_opcode cpu (0x8000 + 256 * x + 16 * y + 0x5) =
      some { cpu with v := ((cpu.v.set x ((cpu.v.getD x 0 + 256 - cpu.v.getD y 0) % 256)).set 0xF
        (if cpu.v.getD x 0 < cpu.v.getD y 0 then 0 else 1)) } := by
  have e4 : (0x8000 + 256 * x + 16 * y + 0x5) / 4096 % 16 = 8 := by omega
  have e3 : (0x8000 + 256 * x + 16 * y + 0x5) / 256 % 16 = x := by omega
  have e2 : (0x8000 + 256 * x + 16 * y + 0x5) / 16 % 16 = y := by omega
  have e1 : (0x8000 + 256 * x + 16 * y + 0x5) % 16 = 5 := by omega
  unfold CPU.process_opcode
  simp only [e4, e3, e2, e1]
  norm_num

theorem shr_arm (cpu : CPU) (x y : Nat) (hx : x < 16) (hy : y < 16) :
    CPU.process_opcode cpu (0x8000 + 256 * x + 16 * y + 0x6) =
      some { cpu with v := ((cpu.v.set 0xF (if cpu.v.getD x 0 % 2 = 1 then 1 else 0)).set x
        ((cpu.v.set 0xF (if cpu.v.getD x 0 % 2 = 1 then 1 else 0)).getD x 0 / 2)) } := by
  have e4 : (0x8000 + 256 * x + 16 * y + 0x6) / 4096 % 16 = 8 := by omega
  have e3 : (0x8000 + 256 * x + 16 * y + 0x6) / 256 % 16 = x := by omega
  have e2 : (0x8000 + 256 * x + 16 * y + 0x6) / 16 % 16 = y := by omega
  have e1 : (0x8000 + 256 * x + 16 * y + 0x6) % 16 = 6 := by omega
  unfold CPU.process_opcode
  simp only [e4, e3, e2, e1]
  norm_num

theorem shl_arm (cpu : CPU) (x y : Nat) (hx : x < 16) (hy : y < 16) :
    CPU.process_opcode cpu (0x8000 + 256 * x + 16 * y + 0xE) =
      some { cpu with v :=
        ((cpu.v.set 0xF (if cpu.v.getD x 0 / 128 % 2 * 128 > 1 then 1 else 0)).set x
          ((cpu.v.set 0xF (if cpu.v.getD x 0 / 128 % 2 * 128 > 1 then 1 else 0)).getD x 0
            * 2 % 256)) } := by
  have e4 : (0x8000 + 256 * x + 16 * y + 0xE) / 4096 % 16 = 8 := by omega
  have e3 : (0x8000 + 256 * x + 16 * y + 0xE) / 256 % 16 = x := by omega
  have e2 : (0x8000 + 256 * x + 16 * y + 0xE) / 16 % 16 = y := by omega
  have e1 : (0x8000 + 256 * x + 16 * y + 0xE) % 16 = 14 := by omega
  unfold CPU.process_opcode
  simp only [e4, e3, e2, e1]
  norm_num

theorem ldk_arm (cpu : CPU) (x : Nat) (hx : x < 16) :
    CPU.process_opcode cpu (0xF00A + 256 * x) =
      (match cpu.keyboard.keys with
       | key :: _ => some { cpu with v := cpu.v.set x key }
       | [] => if cpu.pc < 2 then none else some { cpu with pc := cpu.pc - 2 }) := by
  have e4 : (0xF00A + 256 * x) / 4096 % 16 = 15 := by omega
  have e3 : (0xF00A + 256 * x) / 256 % 16 = x := by omega
  have e2 : (0xF00A + 256 * x) / 16 % 16 = 0 := by omega
  have e1 : (0xF00A + 256 * x) % 16 = 10 := by omega
  unfold CPU.process_opcode
  simp only [e4, e3, e2, e1]
  norm_num

/-- One `exec_cycle` step whose fetched opcode is `LD Vx, K`. -/
theorem exec_cycle_ldk (cpu : CPU) (x : Nat) (hx : x < 16)
    (hlen : cpu.memory.length = 4096)
    (hhi : cpu.memory[cpu.pc]? = some (0xF0 + x))
    (hlo : cpu.memory[cpu.pc + 1]? = some 0x0A) :
    CPU.exec_cycle cpu =
      (match cpu.keyboard.keys with
       | key :: _ => some { cpu with pc := cpu.pc + 2, v := cpu.v.set x key }
       | [] => some cpu) := by
  have hpc : cpu.pc + 1 < 4096 := by
    by_contra h
    rw [List.getElem?_eq_none (by omega)] at hlo
    exact Option.noConfusion hlo
  unfold CPU.exec_cycle
  rw [hhi, hlo]
  dsimp only
  rw [show (0xF0 + x) * 256 + 0x0A = 0xF00A + 256 * x by ring]
  rw [ldk_arm _ x hx]
  have hmod : (cpu.pc + 2) % 65536 = cpu.pc + 2 := Nat.mod_eq_of_lt (by omega)
  dsimp only
  rw [hmod]
  cases hkeys : cpu.keyboard.keys with
  | nil =>
    rw [if_neg (by omega), show cpu.pc + 2 - 2 = cpu.pc from by omega]
  | cons k rest => rfl

/-! ### Keyboard lemmas -/

theorem mem_of_lookup :
    ∀ (l : List (Nat × Nat)) (k v : Nat), List.lookup k l = some v → (k, v) ∈ l := by
  intro l
  induction l with
  | nil => intro k v h; simp [List.lookup] at h
  | cons p rest ih =>
    intro k v h
    match p with
    | (a, b) =>
      rw [List.lookup] at h
      cases hba : (k == a) with
      | true =>
        rw [hba] at h
        simp only [Option.some.injEq] at h
        have : k = a := by simpa using hba
        subst this; subst h
        exact List.mem_cons_self _ _
      | false =>
        rw [hba] at h
        exact List.mem_cons_of_mem _ (ih k v h)

theorem gen_keymap_range : ∀ p ∈ gen_keymap, p.2 ≤ 15 := by decide

theorem insert_key_bound (ks : List Nat) (v : Nat)
    (hks : ∀ a ∈ ks, a ≤ 15) (hv : v ≤ 15) : ∀ a ∈ insert_key ks v, a ≤ 15 := by
  intro a ha
  rw [insert_key] at ha
  split at ha
  · exact hks a ha
  · rcases List.mem_append.mp ha with h | h
    · exact hks a h
    · rw [List.mem_singleton] at h; omega

theorem foldl_insert_bound (km : List (Nat × Nat)) (hkm : ∀ p ∈ km, p.2 ≤ 15) :
    ∀ (pressed acc : List Nat), (∀ a ∈ acc, a ≤ 15) →
      ∀ a ∈ pressed.foldl
        (fun ks hk =>
          match km.lookup hk with
          | some v => insert_key ks v
          | none => ks) acc, a ≤ 15 := by
  intro pressed
  induction pressed with
  | nil => intro acc hacc a ha; exact hacc a ha
  | cons hk rest ih =>
    intro acc hacc a ha
    rw [List.foldl_cons] at ha
    refine ih _ ?_ a ha
    cases hlk : km.lookup hk with
    | none => simpa [hlk] using hacc
    | some v =>
      simp only [hlk]
      exact insert_key_bound acc v hacc (hkm _ (mem_of_lookup km hk v hlk))

theorem update_keys_bound (kb : Keyboard) (pressed : List Nat)
    (hmap : kb.keymap = gen_keymap) :
    ∀ a ∈ (kb.update_keys pressed).keys, a ≤ 15 := by
  intro a ha
  rw [Keyboard.update_keys, hmap] at ha
  exact foldl_insert_bound gen_keymap gen_keymap_range pressed [] (by simp) a ha

/-! ### Claims -/

/-- Claim C9: one timer tick sets the delay timer to `max(dt-1,0)` and
the sound timer to `max(st-1,0)` (truncated `Nat` subtraction), returns
true iff the sound timer was nonzero before the call; and from `ST = 2`
three consecutive ticks return `[true, true, false]` leaving `ST = 0`. -/
theorem claim_c9_update_timers :
    (∀ cpu : CPU,
      (CPU.update_timers cpu).2.dt = cpu.dt - 1 ∧
      (CPU.update_timers cpu).2.st = cpu.st - 1 ∧
      (CPU.update_timers cpu).1 = decide (0 < cpu.st)) ∧
    ((CPU.update_timers { CPU.new with st := 2 }).1 = true ∧
      (CPU.update_timers (CPU.update_timers { CPU.new with st := 2 }).2).1 = true ∧
      (CPU.update_timers
        (CPU.update_timers (CPU.update_timers { CPU.new with st := 2 }).2).2).1 = false ∧
      (CPU.update_timers
        (CPU.update_timers (CPU.update_timers { CPU.new with st := 2 }).2).2).2.st = 0) := by
  constructor
  · intro cpu
    unfold CPU.update_timers
    by_cases hdt : cpu.dt > 0 <;> by_cases hst : cpu.st > 0 <;>
      simp [hdt, hst] <;> omega
  · exact ⟨by decide, by decide, by decide, by decide⟩

/-- Claim C7: `SUB Vx,Vy` stores `(Vx - Vy) mod 256` into `Vx` (the
register write happens before the flag write, so for `x = 0xF` the flag
wins) and sets `VF = 0` iff `Vx < Vy`, else `VF = 1`. -/
theorem claim_c7_sub (cpu : CPU) (x y : Nat) (hx : x < 16) (hy : y < 16)
    (hv : cpu.v.length = 16)
    (hvx : cpu.v.getD x 0 < 256) (hvy : cpu.v.getD y 0 < 256) :
    ∃ cpu2, CPU.process_opcode cpu (0x8000 + 256 * x + 16 * y + 0x5) = some cpu2 ∧
      cpu2.v = ((cpu.v.set x ((cpu.v.getD x 0 + 256 - cpu.v.getD y 0) % 256)).set 0xF
        (if cpu.v.getD x 0 < cpu.v.getD y 0 then 0 else 1)) ∧
      (cpu2.v.getD 0xF 0 = 0 ↔ cpu.v.getD x 0 < cpu.v.getD y 0) ∧
      (x ≠ 0xF →
        cpu2.v.getD x 0 = (cpu.v.getD x 0 + 256 - cpu.v.getD y 0) % 256 ∧
        (cpu2.v.getD x 0 : Int) =
          ((cpu.v.getD x 0 : Int) - (cpu.v.getD y 0 : Int)) % 256) := by
  refine ⟨_, sub_arm cpu x y hx hy, rfl, ?_, ?_⟩
  · rw [getD_set_self _ _ _ _ (by simp only [List.length_set]; omega)]
    by_cases hlt : cpu.v.getD x 0 < cpu.v.getD y 0 <;> simp [hlt]
  · intro hxf
    have h1 : (((cpu.v.set x ((cpu.v.getD x 0 + 256 - cpu.v.getD y 0) % 256)).set 0xF
        (if cpu.v.getD x 0 < cpu.v.getD y 0 then 0 else 1)).getD x 0) =
        (cpu.v.getD x 0 + 256 - cpu.v.getD y 0) % 256 := by
      rw [getD_set_ne _ _ _ _ _ hxf, getD_set_self _ _ _ _ (by omega)]
    refine ⟨h1, ?_⟩
    rw [h1]
    omega

/-- Claim C4 (failing part): opcode `0x5011` (low nibble 1, so by the
spec an undefined pattern that must be a fatal invalid opcode) is in
fact executed by the source as `SE Vx,Vy`: the call succeeds and, with
`V0 = V1`, skips (pc advances from 0x200 to 0x202) instead of
panicking. -/
theorem claim_c4_5xy1_executes_as_se :
    (CPU.process_opcode CPU.new 0x5011).isSome = true ∧
    (CPU.process_opcode CPU.new 0x5011).map CPU.pc = some 0x202 :=
  ⟨by decide, by decide⟩

/-- Witness for C7 at V0 = 5, V1 = 7: result 254, borrow flag VF = 0. -/
theorem claim_c7_sub_witness :
    (CPU.process_opcode { CPU.new with v := ((List.replicate 16 0).set 0 5).set 1 7 }
      (0x8000 + 256 * 0 + 16 * 1 + 0x5)).map (fun c => (c.v.getD 0 0, c.v.getD 15 0)) =
      some (254, 0) := by
  obtain ⟨cpu2, he, _hveq, hiff, hx⟩ :=
    claim_c7_sub { CPU.new with v := ((List.replicate 16 0).set 0 5).set 1 7 } 0 1
      (by decide) (by decide) (by decide) (by decide) (by decide)
  obtain ⟨hxv, _⟩ := hx (by decide)
  rw [he]
  simp only [Option.map_some', Option.some.injEq, Prod.mk.injEq]
  refine ⟨by rw [hxv]; decide, ?_⟩
  have h0 := hiff.mpr (by decide)
  exact h0

/-- Claim C2 (amended): a ROM of length strictly below 3583 loads,
copying its bytes to 0x200.. and leaving every other byte (in
particular the whole font region below 0x200) unchanged; a ROM of
length 3583 or more is rejected with a panic (the source bound is
`len < 0xFFF - 0x200`, not `len ≤ 3583`). -/
theorem claim_c2_load_rom (cpu : CPU) (contents : List Nat)
    (hlen : cpu.memory.length = 4096) :
    (contents.length < 3583 →
      ∃ cpu2, CPU.load_rom cpu contents = some cpu2 ∧
        cpu2.memory.length = 4096 ∧
        (∀ k, k < contents.length →
          cpu2.memory.getD (0x200 + k) 0 = contents.getD k 0) ∧
        (∀ a, a < 0x200 → cpu2.memory.getD a 0 = cpu.memory.getD a 0) ∧
        (∀ a, 0x200 + contents.length ≤ a →
          cpu2.memory.getD a 0 = cpu.memory.getD a 0)) ∧
    (3583 ≤ contents.length → CPU.load_rom cpu contents = none) := by
  constructor
  · intro hc
    refine ⟨_, by rw [CPU.load_rom, if_pos (by omega)], ?_, ?_, ?_, ?_⟩
    · rw [copy_bytes_length, hlen]
    · intro k hk
      exact copy_bytes_getD_in contents cpu.memory 0x200 k hk (by omega)
    · intro a ha
      exact copy_bytes_getD_low contents cpu.memory 0x200 a (by omega)
    · intro a ha
      exact copy_bytes_getD_high contents cpu.memory 0x200 a (by omega)
  · intro hc
    rw [CPU.load_rom, if_neg (by omega)]

/-- Counterexample to C2 as stated: a ROM of exactly 3583 bytes
(= 0xFFF - 0x200, within the claimed bound) is rejected. -/
theorem claim_c2_cex :
    CPU.load_rom CPU.new (List.replicate 3583 0) = none := by
  rw [CPU.load_rom, if_neg]
  simp only [List.length_replicate]
  omega

/-- Witness for C2's amended theorem: loading the one-byte ROM `[7]`
stores 7 at 0x200. -/
theorem claim_c2_witness :
    (CPU.load_rom CPU.new [7]).map (fun c => c.memory.getD 0x200 0) = some 7 := by
  obtain ⟨cpu2, he, _, hin, _, _⟩ :=
    (claim_c2_load_rom CPU.new [7]
      (by simp only [CPU.new, List.length_replicate])).1 (by norm_num)
  rw [he]
  simp only [Option.map_some', Option.some.injEq]
  have h0 := hin 0 (by norm_num)
  simpa using h0

/-- Claim C3 (amended): for every register index `x ≠ 0xF`, SHR leaves
`VF` equal to the pre-shift low bit of `Vx` and SHL leaves `VF = 1` iff
the pre-shift high bit of `Vx` was set.  For `x = 0xF` the source
writes the flag first and then shifts the (just overwritten) register,
so the shift wins: SHR leaves `VF = 0` always, and SHL leaves `VF = 2`
when the high bit was set, else `VF = 0`. -/
theorem claim_c3_shift_flags (cpu : CPU) (x y : Nat) (hx : x < 16) (hy : y < 16)
    (hv : cpu.v.length = 16) (hvx : cpu.v.getD x 0 < 256) :
    (x ≠ 0xF →
      (CPU.process_opcode cpu (0x8000 + 256 * x + 16 * y + 0x6)).map
          (fun c => c.v.getD 0xF 0) = some (cpu.v.getD x 0 % 2) ∧
      (CPU.process_opcode cpu (0x8000 + 256 * x + 16 * y + 0xE)).map
          (fun c => c.v.getD 0xF 0) =
        some (if 128 ≤ cpu.v.getD x 0 then 1 else 0)) ∧
    (x = 0xF →
      (CPU.process_opcode cpu (0x8000 + 256 * x + 16 * y + 0x6)).map
          (fun c => c.v.getD 0xF 0) = some 0 ∧
      (CPU.process_opcode cpu (0x8000 + 256 * x + 16 * y + 0xE)).map
          (fun c => c.v.getD 0xF 0) =
        some (if 128 ≤ cpu.v.getD x 0 then 2 else 0)) := by
  have hlen15 : (15 : Nat) < cpu.v.length := by omega
  have hshl : (cpu.v.getD x 0 / 128 % 2 * 128 > 1) ↔ 128 ≤ cpu.v.getD x 0 := by omega
  constructor
  · intro hxf
    constructor
    · rw [shr_arm cpu x y hx hy]
      simp only [Option.map_some', Option.some.injEq]
      rw [getD_set_ne _ _ _ _ _ (Ne.symm hxf), getD_set_self _ _ _ _ hlen15]
      rcases Nat.mod_two_eq_zero_or_one (cpu.v.getD x 0) with h | h <;> rw [h] <;> simp
    · rw [shl_arm cpu x y hx hy]
      simp only [Option.map_some', Option.some.injEq]
      rw [getD_set_ne _ _ _ _ _ (Ne.symm hxf), getD_set_self _ _ _ _ hlen15]
      by_cases h128 : 128 ≤ cpu.v.getD x 0
      · rw [if_pos (hshl.mpr h128), if_pos h128]
      · rw [if_neg (fun hc => h128 (hshl.mp hc)), if_neg h128]
  · intro hxf
    subst hxf
    constructor
    · rw [shr_arm cpu 0xF y hx hy]
      simp only [Option.map_some', Option.some.injEq]
      rw [getD_set_self _ _ _ _ (by simp only [List.length_set]; omega),
        getD_set_self _ _ _ _ hlen15]
      rcases Nat.mod_two_eq_zero_or_one (cpu.v.getD 0xF 0) with h | h <;> rw [h] <;> simp
    · rw [shl_arm cpu 0xF y hx hy]
      simp only [Option.map_some', Option.some.injEq]
      rw [getD_set_self _ _ _ _ (by simp only [List.length_set]; omega),
        getD_set_self _ _ _ _ hlen15]
      by_cases h128 : 128 ≤ cpu.v.getD 0xF 0
      · rw [if_pos (hshl.mpr h128), if_pos h128]
      · rw [if_neg (fun hc => h128 (hshl.mp hc)), if_neg h128]

/-- Counterexample to C3 as stated: executing SHR VF (0x8F06) with
VF = 1 (pre-shift low bit 1) leaves VF = 0, not the shifted-out bit. -/
theorem claim_c3_cex :
    ({ CPU.new with v := (List.replicate 16 0).set 15 1 } : CPU).v.getD 15 0 % 2 = 1 ∧
    (CPU.process_opcode { CPU.new with v := (List.replicate 16 0).set 15 1 } 0x8F06).map
      (fun c => c.v.getD 15 0) = some 0 :=
  ⟨by decide, by decide⟩

/-- Witness for C3's amended theorem at x = 0, V0 = 3: SHR reports the
low bit 1 in VF. -/
theorem claim_c3_witness :
    (CPU.process_opcode { CPU.new with v := (List.replicate 16 0).set 0 3 }
      (0x8000 + 256 * 0 + 16 * 1 + 0x6)).map (fun c => c.v.getD 0xF 0) = some 1 := by
  have h := ((claim_c3_shift_flags { CPU.new with v := (List.replicate 16 0).set 0 3 } 0 1
    (by decide) (by decide) (by decide) (by decide)).1 (by decide)).1
  rw [h]
  decide

/-- Claim C10: after construction, clear, or any `update_keys` call on
a keyboard carrying the fixed keymap, every held logical key is at
most 15; consequently `LD Vx,K` only ever stores a value at most 15. -/
theorem claim_c10_keys_bounded :
    (∀ a ∈ Keyboard.new.keys, a ≤ 15) ∧
    (∀ kb : Keyboard, ∀ a ∈ (Keyboard.clear kb).keys, a ≤ 15) ∧
    (∀ (kb : Keyboard) (pressed : List Nat), kb.keymap = gen_keymap →
      ∀ a ∈ (kb.update_keys pressed).keys, a ≤ 15) ∧
    (∀ (cpu : CPU) (x k : Nat) (rest : List Nat), x < 16 → cpu.v.length = 16 →
      (∀ a ∈ cpu.keyboard.keys, a ≤ 15) → cpu.keyboard.keys = k :: rest →
      (CPU.process_opcode cpu (0xF00A + 256 * x)).map
        (fun c => c.v.getD x 0) = some k ∧ k ≤ 15) := by
  refine ⟨?_, ?_, update_keys_bound, ?_⟩
  · intro a ha; simp [Keyboard.new] at ha
  · intro kb a ha; simp [Keyboard.clear] at ha
  · intro cpu x k rest hx hv hbound hkeys
    rw [ldk_arm cpu x hx, hkeys]
    refine ⟨?_, hbound k (hkeys ▸ List.mem_cons_self k rest)⟩
    simp only [Option.map_some', Option.some.injEq]
    exact getD_set_self _ _ _ _ (by omega)

/-- Witness for C10: with logical key 3 held, `LD V0,K` stores 3 ≤ 15. -/
theorem claim_c10_witness :
    (CPU.process_opcode { CPU.new with keyboard := { Keyboard.new with keys := [3] } }
      (0xF00A + 256 * 0)).map (fun c => c.v.getD 0 0) = some 3 ∧ (3 : Nat) ≤ 15 :=
  claim_c10_keys_bounded.2.2.2 { CPU.new with keyboard := { Keyboard.new with keys := [3] } }
    0 3 [] (by decide) (by decide) (by decide) rfl

/-- Claim C5: on a state whose next opcode is `LD Vx,K`, a step with no
key pressed returns the state unchanged (pc net advance zero, all
registers intact), and a step with a pressed-key list `k :: rest`
advances pc by exactly 2 and stores the pressed key `k` into Vx. -/
theorem claim_c5_ldk_blocking (cpu : CPU) (x : Nat) (hx : x < 16)
    (hlen : cpu.memory.length = 4096) (hv : cpu.v.length = 16)
    (hhi : cpu.memory[cpu.pc]? = some (0xF0 + x))
    (hlo : cpu.memory[cpu.pc + 1]? = some 0x0A) :
    (cpu.keyboard.keys = [] → CPU.exec_cycle cpu = some cpu) ∧
    (∀ k rest, cpu.keyboard.keys = k :: rest →
      CPU.exec_cycle cpu = some { cpu with pc := cpu.pc + 2, v := cpu.v.set x k } ∧
      (CPU.exec_cycle cpu).map (fun c => c.pc) = some (cpu.pc + 2) ∧
      (CPU.exec_cycle cpu).map (fun c => c.v.getD x 0) = some k ∧
      k ∈ cpu.keyboard.keys) := by
  rw [exec_cycle_ldk cpu x hx hlen hhi hlo]
  constructor
  · intro hkeys
    rw [hkeys]
  · intro k rest hkeys
    rw [hkeys]
    refine ⟨rfl, rfl, ?_, hkeys ▸ List.mem_cons_self k rest⟩
    simp only [Option.map_some', Option.some.injEq]
    exact getD_set_self _ _ _ _ (by omega)

/-- Witness CPU for C5: pc = 0, memory starts `FA 0A` (LD VA,K), key 5
held. -/
def cpu_c5 : CPU :=
  { CPU.new with
    pc := 0
    memory := [0xFA, 0x0A] ++ List.replicate 4094 0
    keyboard := { Keyboard.new with keys := [5] } }

/-- Witness for C5: the step advances pc to 2 and stores key 5 in VA. -/
theorem claim_c5_witness :
    (CPU.exec_cycle cpu_c5).map (fun c => c.pc) = some (cpu_c5.pc + 2) ∧
    (CPU.exec_cycle cpu_c5).map (fun c => c.v.getD 10 0) = some 5 := by
  have h := (claim_c5_ldk_blocking cpu_c5 10 (by decide)
    (by simp only [cpu_c5, CPU.new, List.length_append, List.length_cons,
      List.length_nil, List.length_replicate])
    (by decide)
    (show ([0xFA, 0x0A] ++ List.replicate 4094 0 : List Nat)[(0 : Nat)]? = some 0xFA by
      rw [List.getElem?_append]; norm_num)
    (show ([0xFA, 0x0A] ++ List.replicate 4094 0 : List Nat)[(0 : Nat) + 1]? = some 0x0A by
      rw [List.getElem?_append]; norm_num)).2 5 [] rfl
  exact ⟨h.2.1, h.2.2.1⟩

/-- Claim C8: every cell `draw_sprite` visits has a wrapped in-bounds
index, the draw never fails on a full-size framebuffer (for every
starting coordinate, including x ≥ 64 or y ≥ 32), and an 8-bit-wide
row drawn at x = 60, y = 0 visits, in order, exactly the columns
60, 61, 62, 63, 0, 1, 2, 3 of row 0. -/
theorem claim_c8_draw_in_bounds :
    (∀ (x y : Nat) (sprite : List Nat) (t : Nat),
      t ∈ spriteTargets x y sprite → t < WIDTH * HEIGHT) ∧
    (∀ (d : Display) (x y : Nat) (sprite : List Nat),
      d.fb.length = WIDTH * HEIGHT → (d.draw_sprite x y sprite).isSome = true) ∧
    spriteTargets 60 0 [0xFF] = [60, 61, 62, 63, 0, 1, 2, 3] := by
  refine ⟨?_, ?_, by decide⟩
  · intro x y sprite t ht
    have := rowTargets_lt sprite 0 x y t ht
    simp only [WIDTH, HEIGHT]
    omega
  · intro d x y sprite hlen
    refine draw_sprite_isSome d x y sprite ?_
    rw [hlen]
    norm_num [WIDTH, HEIGHT]

/-- Witness for C8: drawing far outside the nominal grid succeeds. -/
theorem claim_c8_witness :
    (Display.new.draw_sprite 1000 1000 [1, 2, 3]).isSome = true :=
  claim_c8_draw_in_bounds.2.1 Display.new 1000 1000 [1, 2, 3]
    (by simp [Display.new])

/-- Dispatch of the concrete opcode 0xD011 (DRW V0,V1,1). -/
theorem drw_arm_0xD011 (cpu : CPU) :
    CPU.process_opcode cpu 0xD011 =
      (if cpu.i + 0xD011 % 16 + 1 ≤ cpu.memory.length then
        match cpu.display.draw_sprite (cpu.v.getD 0 0) (cpu.v.getD 1 0)
          ((cpu.memory.drop cpu.i).take (0xD011 % 16 + 1)) with
        | none => none
        | some (d2, collision) =>
          some { cpu with display := d2, v := cpu.v.set 0xF (if collision then 1 else 0) }
      else none) := by
  unfold CPU.process_opcode
  norm_num

/-- Failing input for C1: I = 0, memory[0] = memory[1] = 0x80,
V0 = V1 = 0, next opcode 0xD011 (n = 1). -/
def cpu_c1 : CPU := { CPU.new with memory := [0x80, 0x80] ++ List.replicate 4094 0 }

/-- Claim C1 (failing part): executing DRW V0,V1,1 (n = 1) on `cpu_c1`
draws two sprite rows — the pixel at (0,1) (framebuffer cell 64),
which can only come from `memory[I+1]`, ends up lit — because the
source slices `memory[i..=(i+n)]` (n+1 bytes) instead of n bytes;
VF = 0 since nothing collided. -/
theorem claim_c1_drw_row_count :
    (CPU.process_opcode cpu_c1 0xD011).map
      (fun c => (pix c.display.fb 0, pix c.display.fb 64, c.v.getD 0xF 0)) =
      some (true, true, 0) := by
  have hfb : Display.new.fb = List.replicate 2048 false := rfl
  have hlen : (2048 : Nat) ≤ Display.new.fb.length := by
    rw [hfb, List.length_replicate]
  have hT : spriteTargets 0 0 [0x80, 0x80] = [0, 64] := by decide
  have hdraw := draw_sprite_spec Display.new 0 0 [0x80, 0x80] hlen (by norm_num)
  rw [hT] at hdraw
  have hany : (([0, 64] : List Nat).any fun t => pix Display.new.fb t) = false := by
    rw [hfb]
    simp only [List.any_cons, List.any_nil, pix_replicate, Bool.or_self, Bool.or_false]
  rw [hany] at hdraw
  rw [drw_arm_0xD011]
  rw [show cpu_c1.memory = [0x80, 0x80] ++ List.replicate 4094 0 from rfl,
    show cpu_c1.i = 0 from rfl, show cpu_c1.display = Display.new from rfl]
  rw [if_pos (by
    simp only [List.length_append, List.length_cons, List.length_nil, List.length_replicate]
    norm_num)]
  have hslice : List.take (0xD011 % 16 + 1)
      (List.drop 0 (([0x80, 0x80] : List Nat) ++ List.replicate 4094 0)) = [0x80, 0x80] := rfl
  rw [hslice]
  rw [show cpu_c1.v.getD 0 0 = 0 from by decide, show cpu_c1.v.getD 1 0 = 0 from by decide]
  rw [hdraw]
  dsimp only
  simp only [Option.map_some', Option.some.injEq, Prod.mk.injEq]
  refine ⟨?_, ?_, by decide⟩
  · rw [show flipAll Display.new.fb [0, 64] = flip1 (flip1 Display.new.fb 0) 64 from rfl]
    rw [pix_flip1_ne _ _ _ (by norm_num)]
    rw [show flip1 Display.new.fb 0 = Display.new.fb.set 0 (!pix Display.new.fb 0) from rfl]
    rw [pix_set_self _ _ _ (by rw [hfb, List.length_replicate]; norm_num)]
    rw [hfb, pix_replicate]
    rfl
  · rw [show flipAll Display.new.fb [0, 64] = flip1 (flip1 Display.new.fb 0) 64 from rfl]
    rw [show flip1 (flip1 Display.new.fb 0) 64 =
      (flip1 Display.new.fb 0).set 64 (!pix (flip1 Display.new.fb 0) 64) from rfl]
    rw [pix_set_self _ _ _ (by rw [flip1_length, hfb, List.length_replicate]; norm_num)]
    rw [pix_flip1_ne _ _ _ (by norm_num)]
    rw [hfb, pix_replicate]
    rfl

/-! ### Double-draw (C6) -/

/-- Claim C6 (amended): double drawing restores the framebuffer for
every sprite; and for sprites of at most 32 rows (all sprites DRW can
produce) the second call's collision flag is set exactly when the first
call left one of the sprite's target cells on. -/
theorem claim_c6_double_draw (d : Display) (x y : Nat) (sprite : List Nat)
    (hlen : d.fb.length = WIDTH * HEIGHT)
    (d1 d2 : Display) (c1 c2 : Bool)
    (h1 : d.draw_sprite x y sprite = some (d1, c1))
    (h2 : d1.draw_sprite x y sprite = some (d2, c2)) :
    d2.fb = d.fb ∧
    (sprite.length ≤ 32 →
      c2 = ((spriteTargets x y sprite).any fun t => pix d1.fb t)) := by
  have hlen' : 2048 ≤ d.fb.length := by rw [hlen]; norm_num [WIDTH, HEIGHT]
  obtain ⟨ca, hca⟩ := draw_sprite_effect d x y sprite hlen'
  have he1 := h1.symm.trans hca
  simp only [Option.some.injEq, Prod.mk.injEq] at he1
  obtain ⟨hd1, _hc1⟩ := he1
  have hfb1 : d1.fb = flipAll d.fb (spriteTargets x y sprite) := by rw [hd1]
  have hlen1 : 2048 ≤ d1.fb.length := by
    rw [hfb1, flipAll_length]
    exact hlen'
  constructor
  · obtain ⟨cb, hcb⟩ := draw_sprite_effect d1 x y sprite hlen1
    have he2 := h2.symm.trans hcb
    simp only [Option.some.injEq, Prod.mk.injEq] at he2
    obtain ⟨hd2, _hc2⟩ := he2
    rw [hd2]
    show flipAll d1.fb (spriteTargets x y sprite) = d.fb
    rw [hfb1, flipAll_flipAll]
  · intro h32
    have hspec := draw_sprite_spec d1 x y sprite hlen1 h32
    have he2 := h2.symm.trans hspec
    simp only [Option.some.injEq, Prod.mk.injEq] at he2
    exact he2.2

/-- Rows that are all zero bytes draw nothing. -/
theorem bitTargets_zero_row : ∀ (is : List Nat) (x yj : Nat),
    bitTargets x yj 0 is = [] := by
  intro is
  induction is with
  | nil => intro x yj; rfl
  | cons i is ih =>
    intro x yj
    rw [bitTargets]
    rw [if_neg (by simp [Nat.zero_div]), List.nil_append]
    exact ih x yj

theorem draw_rows_zeros : ∀ (n : Nat) (d : Display) (coll : Bool) (x y j : Nat),
    2048 ≤ d.fb.length →
    d.draw_rows coll x y j (List.replicate n 0) = some (d, coll) := by
  intro n
  induction n with
  | zero => intro d coll x y j _; rfl
  | succ n ih =>
    intro d coll x y j hlen
    rw [List.replicate_succ]
    show (match d.draw_bits coll x ((y + j) % 32) 0 (List.range 8) with
      | none => none
      | some (d', coll') => d'.draw_rows coll' x y (j + 1) (List.replicate n 0)) = _
    rw [draw_bits_spec (List.range 8) (List.nodup_range 8)
      (fun b hb => List.mem_range.mp hb) d coll x ((y + j) % 32) 0
      (Nat.mod_lt _ (by omega)) hlen]
    dsimp only
    rw [bitTargets_zero_row]
    show d.draw_rows (coll || false) x y (j + 1) (List.replicate n 0) = some (d, coll)
    rw [Bool.or_false]
    exact ih d coll x y (j + 1) hlen

theorem draw_rows_append : ∀ (l1 l2 : List Nat) (d : Display) (coll : Bool) (x y j : Nat),
    d.draw_rows coll x y j (l1 ++ l2) =
      (d.draw_rows coll x y j l1).bind
        (fun p => p.1.draw_rows p.2 x y (j + l1.length) l2) := by
  intro l1
  induction l1 with
  | nil =>
    intro l2 d coll x y j
    simp [Display.draw_rows]
  | cons row rest ih =>
    intro l2 d coll x y j
    show (match d.draw_bits coll x ((y + j) % 32) row (List.range 8) with
      | none => none
      | some (d', coll') => d'.draw_rows coll' x y (j + 1) (rest ++ l2)) = _
    cases hdb : d.draw_bits coll x ((y + j) % 32) row (List.range 8) with
    | none =>
      show none = ((match d.draw_bits coll x ((y + j) % 32) row (List.range 8) with
        | none => none
        | some (d', coll') => d'.draw_rows coll' x y (j + 1) rest).bind _)
      rw [hdb]
      rfl
    | some p =>
      match p with
      | (d', coll') =>
        show d'.draw_rows coll' x y (j + 1) (rest ++ l2) =
          ((match d.draw_bits coll x ((y + j) % 32) row (List.range 8) with
            | none => none
            | some (d', coll') => d'.draw_rows coll' x y (j + 1) rest).bind
            (fun p => p.1.draw_rows p.2 x y (j + (row :: rest).length) l2))
        rw [hdb]
        dsimp only
        rw [ih l2 d' coll' x y (j + 1)]
        rw [show j + 1 + rest.length = j + (row :: rest).length from by
          simp only [List.length_cons]; omega]

/-- Counterexample sprite for C6: 33 rows, the first and the last with
the leading bit set, so both hit framebuffer cell 0 (row 32 wraps to
row 0). -/
def cexSprite : List Nat := [0x80] ++ List.replicate 31 0 ++ [0x80]

/-- Drawing `cexSprite` at (0,0) on any display whose framebuffer is
the all-off 2048-cell grid flips cell 0 twice (restoring it) and
reports a collision. -/
theorem cex_draw (d : Display) (hfb : d.fb = Display.new.fb) :
    d.draw_sprite 0 0 cexSprite = some (⟨true, d.fb⟩, true) := by
  have hfb' : d.fb = List.replicate 2048 false := hfb
  have hlen : 2048 ≤ d.fb.length := by rw [hfb', List.length_replicate]
  have hT0 : bitTargets 0 0 0x80 (List.range 8) = [0] := by decide
  rw [Display.draw_sprite]
  rw [show cexSprite = 0x80 :: (List.replicate 31 0 ++ [0x80]) from rfl]
  show (match (match d.draw_bits false 0 ((0 + 0) % 32) 0x80 (List.range 8) with
      | none => none
      | some (d', coll') => d'.draw_rows coll' 0 0 (0 + 1) (List.replicate 31 0 ++ [0x80])) with
    | none => none
    | some (d', coll) => some ({ d' with need_redraw := true }, coll)) = _
  rw [draw_bits_spec (List.range 8) (List.nodup_range 8)
    (fun b hb => List.mem_range.mp hb) d false 0 ((0 + 0) % 32) 0x80
    (Nat.mod_lt _ (by omega)) hlen]
  dsimp only
  rw [show (0 + 0) % 32 = 0 from rfl]
  rw [hT0]
  have hp0 : pix d.fb 0 = false := by rw [hfb']; exact pix_replicate 2048 0
  rw [show (([0] : List Nat).any fun t => pix d.fb t) = pix d.fb 0 from by
    simp [List.any_cons], hp0]
  rw [draw_rows_append]
  rw [draw_rows_zeros 31 _ _ 0 0 1 (by rw [flipAll_length]; exact hlen)]
  rw [Option.some_bind]
  dsimp only
  rw [show (1 : Nat) + (List.replicate 31 (0 : Nat)).length = 32 from by
    rw [List.length_replicate]]
  show (match (match (⟨d.need_redraw, flipAll d.fb [0]⟩ : Display).draw_bits
      (false || false) 0 ((0 + 32) % 32) 0x80 (List.range 8) with
    | none => none
    | some (d', coll') => d'.draw_rows coll' 0 0 (32 + 1) []) with
    | none => none
    | some (d', coll) => some ({ d' with need_redraw := true }, coll)) = _
  rw [draw_bits_spec (List.range 8) (List.nodup_range 8)
    (fun b hb => List.mem_range.mp hb) _ _ 0 ((0 + 32) % 32) 0x80
    (Nat.mod_lt _ (by omega)) (by rw [flipAll_length]; exact hlen)]
  dsimp only
  rw [show (0 + 32) % 32 = 0 from rfl]
  rw [hT0]
  have hp1 : pix (flipAll d.fb [0]) 0 = true := by
    rw [show flipAll d.fb [0] = d.fb.set 0 (!pix d.fb 0) from rfl]
    rw [pix_set_self _ _ _ (by rw [hfb', List.length_replicate]; norm_num)]
    rw [hp0]
    rfl
  rw [show ((([0] : List Nat)).any fun t => pix (flipAll d.fb [0]) t) =
    pix (flipAll d.fb [0]) 0 from by simp [List.any_cons], hp1]
  have hrestore : flipAll (flipAll d.fb [0]) [0] = d.fb := flipAll_flipAll [0] d.fb
  rw [hrestore]
  rfl

/-- Counterexample to C6 as stated: with the 33-row `cexSprite` both
target visits hit cell 0; the first draw restores the cell and leaves
every target pixel off, yet the second identical draw still reports a
collision. -/
theorem claim_c6_cex :
    spriteTargets 0 0 cexSprite = [0, 0] ∧
    Display.new.draw_sprite 0 0 cexSprite = some (⟨true, Display.new.fb⟩, true) ∧
    (⟨true, Display.new.fb⟩ : Display).draw_sprite 0 0 cexSprite =
      some (⟨true, Display.new.fb⟩, true) ∧
    ((spriteTargets 0 0 cexSprite).any fun t => pix Display.new.fb t) = false := by
  refine ⟨by decide, cex_draw Display.new rfl, cex_draw _ rfl, ?_⟩
  rw [show spriteTargets 0 0 cexSprite = [0, 0] from by decide]
  rw [show Display.new.fb = List.replicate 2048 false from rfl]
  simp only [List.any_cons, List.any_nil, pix_replicate, Bool.or_self, Bool.or_false]

/-- First draw of a one-row sprite at (0,0) on a fresh display: no
collision, cell 0 flipped on. -/
theorem one_row_first :
    Display.new.draw_sprite 0 0 [0x80] = some (⟨true, flipAll Display.new.fb [0]⟩, false) := by
  have hlen : 2048 ≤ Display.new.fb.length := by
    rw [show Display.new.fb = List.replicate 2048 false from rfl, List.length_replicate]
  have h := draw_sprite_spec Display.new 0 0 [0x80] hlen (by norm_num)
  rw [show spriteTargets 0 0 [0x80] = [0] from by decide] at h
  rw [h]
  rw [show ((([0] : List Nat)).any fun t => pix Display.new.fb t) = pix Display.new.fb 0 from by
    simp [List.any_cons]]
  rw [show pix Display.new.fb 0 = false from by
    rw [show Display.new.fb = List.replicate 2048 false from rfl]; exact pix_replicate 2048 0]

/-- Second identical draw: collision reported, cell 0 flipped back. -/
theorem one_row_second :
    (⟨true, flipAll Display.new.fb [0]⟩ : Display).draw_sprite 0 0 [0x80] =
      some (⟨true, flipAll (flipAll Display.new.fb [0]) [0]⟩, true) := by
  have hlen : 2048 ≤ (flipAll Display.new.fb [0]).length := by
    rw [flipAll_length, show Display.new.fb = List.replicate 2048 false from rfl,
      List.length_replicate]
  have h := draw_sprite_spec ⟨true, flipAll Display.new.fb [0]⟩ 0 0 [0x80] hlen (by norm_num)
  rw [show spriteTargets 0 0 [0x80] = [0] from by decide] at h
  rw [h]
  rw [show ((([0] : List Nat)).any fun t =>
      pix (flipAll Display.new.fb [0]) t) = pix (flipAll Display.new.fb [0]) 0 from by
    simp [List.any_cons]]
  rw [show pix (flipAll Display.new.fb [0]) 0 = true from by
    rw [show flipAll Display.new.fb [0] = Display.new.fb.set 0 (!pix Display.new.fb 0) from rfl]
    rw [pix_set_self _ _ _ (by
      rw [show Display.new.fb = List.replicate 2048 false from rfl, List.length_replicate]
      norm_num)]
    rw [show pix Display.new.fb 0 = false from by
      rw [show Display.new.fb = List.replicate 2048 false from rfl]
      exact pix_replicate 2048 0]
    rfl]

/-- Witness for C6's amended theorem: the one-row sprite 0x80 drawn
twice at (0,0) restores the framebuffer, and the second collision flag
matches the target-pixel state after the first draw. -/
theorem claim_c6_witness :
    (⟨true, flipAll (flipAll Display.new.fb [0]) [0]⟩ : Display).fb = Display.new.fb ∧
    (([0x80] : List Nat).length ≤ 32 →
      true = ((spriteTargets 0 0 [0x80]).any fun t =>
        pix (⟨true, flipAll Display.new.fb [0]⟩ : Display).fb t)) :=
  claim_c6_double_draw Display.new 0 0 [0x80]
    (by rw [show Display.new.fb = List.replicate 2048 false from rfl, List.length_replicate]
        norm_num [WIDTH, HEIGHT])
    _ _ _ _ one_row_first one_row_second

end Chip8
